import Mathlib

/-!
Verification of the batch generation orchestrator of the avatar-3d
repository (grid step generator, remote generation client, batch
orchestrator, streaming transport), embedded shallowly from the
TypeScript sources:
  - src/lib/constants.ts         (grid step generator, cost)
  - src/lib/replicate.ts         (remote generation client)
  - src/app/api/generate/stream/route.ts  (orchestrator + transport)
Numbers that the source manipulates as JS doubles are modelled as ℚ;
all inputs reached by the claims produce values that are exact in
binary floating point, so the ℚ model agrees with the JS semantics
there.  JS string formatting of numbers (used only inside generated
filenames) is abstracted by the ℚ printer.
-/

namespace Avatar3D

/-- Defaults from src/lib/constants.ts (`DEFAULTS`). -/
def X_STEPS : ℕ := 5
def Y_STEPS : ℕ := 5
def ROTATE_BOUND : ℚ := 20
def PUPIL_BOUND : ℚ := 15
def CROP_FACTOR : ℚ := 17 / 10
def OUTPUT_QUALITY : ℚ := 100

/-- `COST_PER_IMAGE` from src/lib/constants.ts. -/
def COST_PER_IMAGE : ℚ := 98 / 100000

/-- `round(value, precision = 100)` from src/lib/constants.ts:
`Math.round(value * precision) / precision`.  JS `Math.round x` is
`⌊x + 1/2⌋` (round half towards +∞). -/
def round (value : ℚ) : ℚ := (⌊value * 100 + 1 / 2⌋ : ℚ) / 100

/-- One `Step` record from src/lib/types.ts, as produced by
`generateSteps` in src/lib/constants.ts. -/
structure Step where
  filename : String
  rotate_yaw : ℚ
  rotate_pitch : ℚ
  pupil_x : ℚ
  pupil_y : ℚ
  crop_factor : ℚ
  output_quality : ℚ
  src_ratio : ℚ
  sample_ratio : ℚ
deriving DecidableEq, Repr

/-- The body of the double loop in `generateSteps`
(src/lib/constants.ts, lines 45-66): the step pushed for column `x`
of row `y`.  `pfx` is the `prefix` option. -/
def mkStep (pfx : String) (rotateBound pupilBound : ℚ) (xSteps ySteps x y : ℕ) :
    Step :=
  let xNorm : ℚ := if 1 < xSteps then (x : ℚ) / ((xSteps : ℚ) - 1) else 1 / 2
  let yNorm : ℚ := if 1 < ySteps then (y : ℚ) / ((ySteps : ℚ) - 1) else 1 / 2
  let rotate_yaw := round (-rotateBound + xNorm * rotateBound * 2)
  let rotate_pitch := round (-rotateBound + yNorm * rotateBound * 2)
  let pupil_x := round (-pupilBound + xNorm * pupilBound * 2)
  let pupil_y := round (-pupilBound + yNorm * pupilBound * 2)
  { filename := pfx ++ "_y" ++ toString rotate_yaw ++ "_p" ++ toString rotate_pitch
      ++ "_px" ++ toString pupil_x ++ "_py" ++ toString pupil_y ++ ".png"
    rotate_yaw := rotate_yaw
    rotate_pitch := rotate_pitch
    pupil_x := pupil_x
    pupil_y := pupil_y
    crop_factor := CROP_FACTOR
    output_quality := OUTPUT_QUALITY
    src_ratio := 1
    sample_ratio := 1 }

/-- `generateSteps` from src/lib/constants.ts: the row-major nested
list of steps (`y` outer, `x` inner). -/
def generateSteps (xSteps ySteps : ℕ) (pfx : String)
    (rotateBound : ℚ := ROTATE_BOUND) (pupilBound : ℚ := PUPIL_BOUND) :
    List (List Step) :=
  (List.range ySteps).map fun y =>
    (List.range xSteps).map fun x =>
      mkStep pfx rotateBound pupilBound xSteps ySteps x y

/-- `steps.flat()` as computed by the stream route
(src/app/api/generate/stream/route.ts, line 46). -/
def flatSteps (xSteps ySteps : ℕ) (pfx : String)
    (rotateBound : ℚ := ROTATE_BOUND) (pupilBound : ℚ := PUPIL_BOUND) :
    List Step :=
  (generateSteps xSteps ySteps pfx rotateBound pupilBound).flatten

/-- `calculateCost` from src/lib/constants.ts. -/
def calculateCost (xSteps ySteps : ℕ) : ℚ := xSteps * ySteps * COST_PER_IMAGE

/-! ### Remote generation client: failure classification -/

/-- JS `String.prototype.includes`: `sub` occurs as a contiguous
substring of `s` (modelled on the character lists). -/
def strIncludes (s sub : String) : Bool :=
  (List.range (s.data.length + 1)).any fun i =>
    (s.data.drop i).take sub.data.length == sub.data

/-- Outcome of one `generateImage` call as observed by the
orchestrator's retry loop: either the image bytes (already re-encoded
by `imageBuffer.toString("base64")`) or the thrown error's message.
A thrown value that is not an `Error` has no message and is modelled
by a message that does not contain `"429"`. -/
inductive AttemptResult where
  | success (image : String)
  | failure (message : String)
deriving DecidableEq, Repr

/-- `err instanceof Error && err.message.includes("429")`
(src/app/api/generate/stream/route.ts, line 91). -/
def is429 (message : String) : Bool := strIncludes message "429"

def is429Fail : AttemptResult → Bool
  | .success _ => false
  | .failure msg => is429 msg

def MAX_RETRIES : ℕ := 5
def INITIAL_BACKOFF_MS : ℕ := 5000

/-- `Math.min(INITIAL_BACKOFF_MS * Math.pow(2, retries), 60000)`
(route.ts, lines 93-96). -/
def backoffWait (retries : ℕ) : ℕ :=
  min (INITIAL_BACKOFF_MS * 2 ^ retries) 60000

/-- Terminal state of one frame: `retries` is the value of the
`retries` counter at the attempt that settled the frame. -/
inductive FrameResult where
  | succeeded (retries : ℕ) (image : String)
  | givenUp (retries : ℕ) (message : String)
deriving DecidableEq, Repr

/-- The retry loop `while (retries < MAX_RETRIES) { ... }` shared by
`processImage` (route.ts, lines 64-105) and `processNext`
(the worker-pool variant, lines 66-107): `outcomes k` is the result
of the `generateImage` call made while `retries = k`.  Returns the
frame's terminal state together with the list of backoff waits
performed, in order.  `none` models falling out of the loop without
settling, which `retryLoop_isSome` proves unreachable. -/
def retryLoopAux (outcomes : ℕ → AttemptResult) :
    ℕ → ℕ → Option FrameResult × List ℕ
  | 0, _ => (none, [])
  | fuel + 1, retries =>
    if retries < MAX_RETRIES then
      match outcomes retries with
      | .success img => (some (.succeeded retries img), [])
      | .failure msg =>
        if is429 msg ∧ retries < MAX_RETRIES - 1 then
          let rest := retryLoopAux outcomes fuel (retries + 1)
          (rest.1, backoffWait retries :: rest.2)
        else (some (.givenUp retries msg), [])
    else (none, [])

/-- Entry of the loop: the loop guard is re-checked every iteration,
and each iteration increments `retries`, so `MAX_RETRIES - retries`
bounds the remaining iterations and serves as structural fuel. -/
def retryLoop (outcomes : ℕ → AttemptResult) (retries : ℕ) :
    Option FrameResult × List ℕ :=
  retryLoopAux outcomes (MAX_RETRIES - retries) retries

/-- Claim-side (from the spec's wording): attempt `k` settles the
frame when it is not a retryable (429) failure, or when the attempt
count `k + 1` has reached the maximum of `MAX_RETRIES = 5` attempts. -/
def settlesAt (outcomes : ℕ → AttemptResult) (k : ℕ) : Bool :=
  !is429Fail (outcomes k) || (k + 1 == MAX_RETRIES)

/-- Claim-side: the 0-based index of the attempt on which the frame
settles, searching from attempt `k`. -/
def settleIdx (outcomes : ℕ → AttemptResult) (k : ℕ) : ℕ :=
  if h : k + 1 < MAX_RETRIES then
    if settlesAt outcomes k then k else settleIdx outcomes (k + 1)
  else k
  termination_by MAX_RETRIES - k
  decreasing_by omega

/-- The terminal state the retry loop assigns to the attempt
sequence, expressed through the claim-side settle index. -/
def settleResult (outcomes : ℕ → AttemptResult) (k : ℕ) : FrameResult :=
  match outcomes (settleIdx outcomes k) with
  | .success img => .succeeded (settleIdx outcomes k) img
  | .failure msg => .givenUp (settleIdx outcomes k) msg

/-! ### Batch orchestrator and streaming transport

The stream body (`start(controller)` in
src/app/api/generate/stream/route.ts) first enqueues the `config`
event, then lets the worker pool settle every frame — each settlement
runs `completedCount++` and (on success only) `enqueue(progress)` in
one synchronous block with no `await` between them — then enqueues
`complete` and closes the controller.  The only runtime freedom is
the order in which frames settle, so the trace is modelled as a
function of that order (`settleOrder`); the worker pool and the
chunked dispatcher both guarantee that `settleOrder` is a permutation
of `0 .. N-1`, which theorems take as a hypothesis.  The `progress`
event's `step` field (a copy of `flatSteps[index]`, a pure function
of `index`) and the `config` event's `prefix` field are carried
unchanged from the request and are elided from the event model. -/

/-- The stream events of §4.4, JSON objects tagged by `type`. -/
inductive Event where
  | config (xSteps ySteps totalImages : ℕ) (estimatedCost : ℚ)
  | progress (completed total index : ℕ) (image : String)
  | complete
  | error (message : String)
deriving DecidableEq, Repr

/-- What the transport does with the controller: enqueue one framed
event, or close the stream. -/
inductive Action where
  | emit (e : Event)
  | close
deriving DecidableEq, Repr

def isProgressEv : Event → Bool
  | .progress _ _ _ _ => true
  | _ => false

def evCompleted : Event → ℕ
  | .progress completed _ _ _ => completed
  | _ => 0

def evIndex : Event → Option ℕ
  | .progress _ _ index _ => some index
  | _ => none

def isConfigAction : Action → Bool
  | .emit (.config _ _ _ _) => true
  | _ => false

def isProgressAction : Action → Bool
  | .emit e => isProgressEv e
  | _ => false

def isCompleteAction : Action → Bool
  | .emit .complete => true
  | _ => false

def isErrorAction : Action → Bool
  | .emit (.error _) => true
  | _ => false

def isCloseAction : Action → Bool
  | .close => true
  | _ => false

/-- The progress event carried by an action, if any. -/
def progressOf : Action → Option Event
  | .emit (.progress completed total index img) =>
      some (.progress completed total index img)
  | _ => none

def isSuccess : Option FrameResult → Bool
  | some (.succeeded _ _) => true
  | _ => false

/-- The per-frame completion handling, folded over the frames in the
order they settle (`route.ts` lines 78-88 on success, lines 100-102
on give-up): on success `completedCount++` then `enqueue(progress)`
with the new count; on give-up `completedCount++` only — **no**
`progress` event is enqueued.  Returns the emitted progress events in
order and the final `completedCount`. -/
def emitFrames (results : ℕ → Option FrameResult) (total : ℕ) :
    List ℕ → ℕ → List Event × ℕ
  | [], count => ([], count)
  | i :: rest, count =>
    match results i with
    | some (.succeeded _ img) =>
      let r := emitFrames results total rest (count + 1)
      (.progress (count + 1) total i img :: r.1, r.2)
    | some (.givenUp _ _) => emitFrames results total rest (count + 1)
    | none => emitFrames results total rest count

/-- The terminal state each frame's retry loop reaches, given the
outcome of every attempt of every frame. -/
def frameResults (outcomes : ℕ → ℕ → AttemptResult) :
    ℕ → Option FrameResult :=
  fun i => (retryLoop (outcomes i) 0).1

/-- The full action trace of the stream body: `config` first, then
the per-frame emissions in settle order, then `complete`, then the
controller is closed.  Nothing inside the `try` block can throw in
this model (every per-frame error is caught inside the retry loop),
so the `catch` branch that would emit `error` is dead code here. -/
def runOrchestrator (xSteps ySteps : ℕ) (settleOrder : List ℕ)
    (outcomes : ℕ → ℕ → AttemptResult) : List Action :=
  Action.emit (.config xSteps ySteps (xSteps * ySteps)
      (calculateCost xSteps ySteps)) ::
    ((emitFrames (frameResults outcomes) (xSteps * ySteps)
        settleOrder 0).1.map .emit ++
      [Action.emit .complete, Action.close])

/-! ### Concurrency discipline -/

def CONCURRENCY : ℕ := 8

/-- The chunked dispatcher
(`for (let i = 0; i < flatSteps.length; i += CONCURRENCY)`,
route.ts lines 110-115): the list of index batches dispatched
concurrently, each awaited with `Promise.all` before the next
starts.  Batch at cursor `i` holds the indices of
`flatSteps.slice(i, i + CONCURRENCY)`. -/
def dispatchFrom (n : ℕ) (i : ℕ) : List (List ℕ) :=
  if i < n then
    List.range' i (min CONCURRENCY (n - i)) :: dispatchFrom n (i + CONCURRENCY)
  else []
  termination_by n - i
  decreasing_by simp [CONCURRENCY]; omega

def dispatchBatches (n : ℕ) : List (List ℕ) := dispatchFrom n 0

/-- `Array(Math.min(CONCURRENCY, flatSteps.length))` — the worker
pool size of the worker-pool variant (line 112 of that variant). -/
def workerCount (concurrency frames : ℕ) : ℕ := min concurrency frames

/-! ### HTTP handler entry (request validation, response headers) -/

/-- JS truthiness test `!x` for an optional string: true when the
value is absent (`undefined`) or the empty string. -/
def jsFalsy : Option String → Bool
  | none => true
  | some s => s == ""

/-- Body of the synchronous part of the `POST` response: either a
JSON error object or the live event stream. -/
inductive RespBody where
  | json (error : String)
  | eventStream
deriving DecidableEq, Repr

structure Resp where
  status : ℕ
  contentType : String
  cacheControl : Option String
  connection : Option String
  body : RespBody
deriving DecidableEq, Repr

/-- The request-validation prefix of `POST`
(src/app/api/generate/stream/route.ts, lines 29-41 and 131-137):
reject a falsy `imageBase64` with 400, reject a falsy
`REPLICATE_API_TOKEN` with 500, otherwise return the SSE stream
response. -/
def POSTHandler (imageBase64 : Option String) (apiToken : Option String) :
    Resp :=
  if jsFalsy imageBase64 then
    { status := 400, contentType := "application/json",
      cacheControl := none, connection := none,
      body := .json "No image provided" }
  else if jsFalsy apiToken then
    { status := 500, contentType := "application/json",
      cacheControl := none, connection := none,
      body := .json "Server not configured. Missing API token." }
  else
    { status := 200, contentType := "text/event-stream",
      cacheControl := some "no-cache", connection := some "keep-alive",
      body := .eventStream }

/-! ### Remote generation client: output normalization -/

/-- The shapes `replicate.run` may hand back, as the duck-typed
checks of `generateImage` (src/lib/replicate.ts, lines 66-141)
distinguish them: a URL string, a byte stream (its chunks), an
array of such values, or anything else. -/
inductive JsVal where
  | str (s : String)
  | rstream (chunks : List (List ℕ))
  | arr (items : List JsVal)
  | other

/-- `fetch(url)` followed by `response.arrayBuffer()`: the
environment `fetchFn` yields the bytes, or the failing HTTP status. -/
def fetchImage (fetchFn : String → Except ℕ (List ℕ)) (url : String) :
    Except String (List ℕ) :=
  match fetchFn url with
  | .ok bytes => .ok bytes
  | .error status => .error ("Failed to fetch image: " ++ toString status)

def unexpectedOutputMsg : String := "Unexpected output format from Replicate API"

/-- `generateImage`'s output normalization (replicate.ts, lines
66-141): a non-empty array is consumed through its first element
only (string → fetch, stream → concatenate chunks, else fall through
to the outer checks, which an array never passes); a bare string is
fetched; a bare stream is concatenated; everything else throws
`unexpectedOutputMsg`. -/
def generateImage (fetchFn : String → Except ℕ (List ℕ)) :
    JsVal → Except String (List ℕ)
  | .arr (item :: _) =>
    match item with
    | .str s => fetchImage fetchFn s
    | .rstream chunks => .ok chunks.flatten
    | _ => .error unexpectedOutputMsg
  | .str s => fetchImage fetchFn s
  | .rstream chunks => .ok chunks.flatten
  | _ => .error unexpectedOutputMsg

/-- Claim-side: the output shapes from which `generateImage` can
produce bytes — a string, a stream, or a non-empty array whose first
element is a string or a stream. -/
def usableShape : JsVal → Bool
  | .str _ => true
  | .rstream _ => true
  | .arr (.str _ :: _) => true
  | .arr (.rstream _ :: _) => true
  | _ => false

-- THEOREMS_BEGIN

theorem sum_map_const {α : Type} (l : List α) (k : ℕ) :
    (l.map fun _ => k).sum = l.length * k := by
  induction l with
  | nil => simp
  | cons a l ih => simp [ih, Nat.succ_mul, Nat.add_comm]

theorem flatSteps_length (xSteps ySteps : ℕ) (pfx : String)
    (rb pb : ℚ) :
    (flatSteps xSteps ySteps pfx rb pb).length = xSteps * ySteps := by
  simp only [flatSteps, generateSteps, List.length_flatten, List.map_map,
    Function.comp_def, List.length_map, List.length_range]
  rw [sum_map_const]
  simp [Nat.mul_comm]

/-- Indexing into the flattening of a rectangular map over ranges:
the element at flattened position `y * m + x` is `f y x`. -/
theorem join_map_range_get {α : Type} (m : ℕ) :
    ∀ (n : ℕ) (f : ℕ → ℕ → α) (y x : ℕ), y < n → x < m →
      (((List.range n).map fun y => (List.range m).map (f y)).flatten).get?
        (y * m + x) = some (f y x) := by
  intro n
  induction n with
  | zero => intro f y x hy _; exact absurd hy (by omega)
  | succ n ih =>
    intro f y x hy hx
    rw [List.range_succ_eq_map, List.map_cons, List.map_map, List.flatten_cons]
    match y with
    | 0 =>
      rw [Nat.zero_mul, Nat.zero_add,
        List.get?_append (by simpa using hx), List.get?_map,
        List.get?_range hx]
      rfl
    | y' + 1 =>
      have hlen : ((List.range m).map (f 0)).length = m := by simp
      have hidx : (y' + 1) * m + x = m + (y' * m + x) := by ring
      rw [hidx, List.get?_append_right (by omega)]
      have : m + (y' * m + x) - ((List.range m).map (f 0)).length
          = y' * m + x := by omega
      rw [this]
      have := ih (fun k => f (k + 1)) y' x (by omega) hx
      simpa [Function.comp] using this

theorem flatSteps_get (xSteps ySteps : ℕ) (pfx : String) (rb pb : ℚ)
    (y x : ℕ) (hy : y < ySteps) (hx : x < xSteps) :
    (flatSteps xSteps ySteps pfx rb pb).get? (y * xSteps + x) =
      some (mkStep pfx rb pb xSteps ySteps x y) :=
  join_map_range_get xSteps ySteps
    (fun y x => mkStep pfx rb pb xSteps ySteps x y) y x hy hx

theorem flatSteps_get_contiguous (xSteps ySteps : ℕ) (pfx : String)
    (rb pb : ℚ) (i : ℕ) (hxs : 1 ≤ xSteps) (hi : i < xSteps * ySteps) :
    (flatSteps xSteps ySteps pfx rb pb).get? i =
      some (mkStep pfx rb pb xSteps ySteps (i % xSteps) (i / xSteps)) := by
  have hx : i % xSteps < xSteps := Nat.mod_lt _ (by omega)
  have hy : i / xSteps < ySteps := by
    rw [Nat.div_lt_iff_lt_mul (by omega)]
    exact Nat.mul_comm xSteps ySteps ▸ hi
  have heq : i / xSteps * xSteps + i % xSteps = i := by
    rw [Nat.mul_comm]; exact Nat.div_add_mod i xSteps
  have h := flatSteps_get xSteps ySteps pfx rb pb (i / xSteps) (i % xSteps) hy hx
  rw [heq] at h
  exact h

/-- C5: for all `xSteps, ySteps ≥ 1`, `generateSteps` produces
exactly `xSteps * ySteps` steps in row-major order (`y` outer, `x`
inner) with unique contiguous flattened indices
`0 .. xSteps*ySteps - 1` (position `i` of `steps.flat()` holds the
step of column `i % xSteps`, row `i / xSteps`); for
`xSteps = 5, ySteps = 5, rotateBound = 20, pupilBound = 15`, the step
at row 0 col 0 has values `(-20, -20, -15, -15)`, the step at row 4
col 4 has `(20, 20, 15, 15)` and the step at row 2 col 2 has all four
values 0. -/
theorem generateSteps_grid_shape :
    (∀ (xSteps ySteps : ℕ) (pfx : String) (rb pb : ℚ),
      1 ≤ xSteps → 1 ≤ ySteps →
      (flatSteps xSteps ySteps pfx rb pb).length = xSteps * ySteps ∧
      (∀ y x, y < ySteps → x < xSteps →
        (flatSteps xSteps ySteps pfx rb pb).get? (y * xSteps + x) =
          some (mkStep pfx rb pb xSteps ySteps x y)) ∧
      (∀ i, i < xSteps * ySteps →
        (flatSteps xSteps ySteps pfx rb pb).get? i =
          some (mkStep pfx rb pb xSteps ySteps (i % xSteps) (i / xSteps)))) ∧
    ((flatSteps 5 5 "avatar" 20 15).get? (0 * 5 + 0)).map
        (fun s => (s.rotate_yaw, s.rotate_pitch, s.pupil_x, s.pupil_y)) =
      some (-20, -20, -15, -15) ∧
    ((flatSteps 5 5 "avatar" 20 15).get? (4 * 5 + 4)).map
        (fun s => (s.rotate_yaw, s.rotate_pitch, s.pupil_x, s.pupil_y)) =
      some (20, 20, 15, 15) ∧
    ((flatSteps 5 5 "avatar" 20 15).get? (2 * 5 + 2)).map
        (fun s => (s.rotate_yaw, s.rotate_pitch, s.pupil_x, s.pupil_y)) =
      some (0, 0, 0, 0) := by
  refine ⟨fun xSteps ySteps pfx rb pb hxs hys =>
    ⟨flatSteps_length xSteps ySteps pfx rb pb,
     fun y x hy hx => flatSteps_get xSteps ySteps pfx rb pb y x hy hx,
     fun i hi => flatSteps_get_contiguous xSteps ySteps pfx rb pb i hxs hi⟩,
    ?_, ?_, ?_⟩ <;>
  · rw [flatSteps_get 5 5 "avatar" 20 15 _ _ (by omega) (by omega)]
    simp only [Option.map_some', mkStep]
    norm_num [round]

/-- C5 witness: the general part of `generateSteps_grid_shape`
applied at the concrete grid `xSteps = 3, ySteps = 2`. -/
theorem generateSteps_grid_shape_witness :
    (flatSteps 3 2 "a" 20 15).length = 3 * 2 ∧
    (flatSteps 3 2 "a" 20 15).get? (1 * 3 + 2) =
      some (mkStep "a" 20 15 3 2 2 1) := by
  have h := generateSteps_grid_shape.1 3 2 "a" 20 15 (by decide) (by decide)
  exact ⟨h.1, h.2.1 1 2 (by decide) (by decide)⟩

/-- C6: for `xSteps = 1` every step's x-derived values (`rotate_yaw`
and `pupil_x`) equal `round (-bound + (1/2) * bound * 2) = 0`, the
value at the fixed midpoint normalized coordinate `0.5`, and
symmetrically for `ySteps = 1`; the midpoint branch of `mkStep` never
divides by `xSteps - 1`. -/
theorem generateSteps_singleton_axis :
    ∀ (n : ℕ) (pfx : String) (rb pb : ℚ),
      (∀ s ∈ flatSteps 1 n pfx rb pb,
        s.rotate_yaw = 0 ∧ s.pupil_x = 0 ∧
        s.rotate_yaw = round (-rb + (1 / 2) * rb * 2) ∧
        s.pupil_x = round (-pb + (1 / 2) * pb * 2)) ∧
      (∀ s ∈ flatSteps n 1 pfx rb pb,
        s.rotate_pitch = 0 ∧ s.pupil_y = 0 ∧
        s.rotate_pitch = round (-rb + (1 / 2) * rb * 2) ∧
        s.pupil_y = round (-pb + (1 / 2) * pb * 2)) := by
  intro n pfx rb pb
  have hval : ∀ b : ℚ, round (-b + 1 / 2 * b * 2) = 0 := by
    intro b
    have h : -b + 1 / 2 * b * 2 = 0 := by ring
    rw [h]; norm_num [round]
  have h11 : ¬ ((1 : ℕ) < 1) := by omega
  constructor
  · intro s hs
    simp only [flatSteps, generateSteps, List.mem_flatten, List.mem_map,
      List.mem_range] at hs
    obtain ⟨a, ⟨y, hy, rfl⟩, hs⟩ := hs
    simp only [List.mem_map, List.mem_range] at hs
    obtain ⟨x, hx, rfl⟩ := hs
    simp only [mkStep, if_neg h11]
    exact ⟨hval rb, hval pb, by trivial, by trivial⟩
  · intro s hs
    simp only [flatSteps, generateSteps, List.mem_flatten, List.mem_map,
      List.mem_range] at hs
    obtain ⟨a, ⟨y, hy, rfl⟩, hs⟩ := hs
    simp only [List.mem_map, List.mem_range] at hs
    obtain ⟨x, hx, rfl⟩ := hs
    simp only [mkStep, if_neg h11]
    exact ⟨hval rb, hval pb, by trivial, by trivial⟩

/-- C6 witness: `generateSteps_singleton_axis` applied to the single
step of the `1 × 1` grid with the default bounds. -/
theorem generateSteps_singleton_axis_witness :
    (mkStep "a" 20 15 1 1 0 0).rotate_yaw = 0 ∧
    (mkStep "a" 20 15 1 1 0 0).pupil_x = 0 := by
  have h := (generateSteps_singleton_axis 1 "a" 20 15).1
    (mkStep "a" 20 15 1 1 0 0)
    (by simp [flatSteps, generateSteps, List.range_succ])
  exact ⟨h.1, h.2.1⟩

theorem settleIdx_ge (outcomes : ℕ → AttemptResult) :
    ∀ k, k ≤ settleIdx outcomes k := by
  intro k
  induction k using settleIdx.induct outcomes with
  | case1 k h hs => rw [settleIdx, dif_pos h, if_pos hs]
  | case2 k h hs ih =>
    rw [settleIdx, dif_pos h, if_neg hs]
    omega
  | case3 k h => rw [settleIdx, dif_neg h]

theorem settleIdx_lt (outcomes : ℕ → AttemptResult) :
    ∀ k, k < MAX_RETRIES → settleIdx outcomes k < MAX_RETRIES := by
  intro k
  induction k using settleIdx.induct outcomes with
  | case1 k h hs => intro _; rw [settleIdx, dif_pos h, if_pos hs]; omega
  | case2 k h hs ih =>
    intro _
    rw [settleIdx, dif_pos h, if_neg hs]
    exact ih (by omega)
  | case3 k h => intro hk; rw [settleIdx, dif_neg h]; exact hk

/-- Closed form of the retry loop: starting at `retries = k < 5`, the
loop settles exactly at attempt `settleIdx outcomes k` and waits
exactly `backoffWait j` before each retried attempt `j + 1`. -/
theorem retryLoop_closed_aux (outcomes : ℕ → AttemptResult) :
    ∀ d k, MAX_RETRIES - k = d → k < MAX_RETRIES →
      retryLoopAux outcomes d k =
        (some (settleResult outcomes k),
         (List.range' k (settleIdx outcomes k - k)).map backoffWait) := by
  intro d
  induction d with
  | zero => intro k hd hk; exact absurd hk (by omega)
  | succ d ih =>
    intro k hd hk
    rw [retryLoopAux, if_pos hk]
    by_cases hsettle : settlesAt outcomes k = true
    · have hidx : settleIdx outcomes k = k := by
        rw [settleIdx]
        by_cases h1 : k + 1 < MAX_RETRIES
        · rw [dif_pos h1, if_pos hsettle]
        · rw [dif_neg h1]
      rw [settleResult, hidx, Nat.sub_self]
      simp only [settlesAt, Bool.or_eq_true, Bool.not_eq_true',
        beq_iff_eq] at hsettle
      cases houtcome : outcomes k with
      | success img => simp
      | failure msg =>
        have hstop : ¬ (is429 msg = true ∧ k < MAX_RETRIES - 1) := by
          rw [houtcome] at hsettle
          simp only [is429Fail] at hsettle
          rcases hsettle with h1 | h1
          · rintro ⟨h2, -⟩
            rw [h1] at h2
            cases h2
          · omega
        simp [hstop]
    · have hklt : k + 1 < MAX_RETRIES := by
        rcases Nat.lt_or_ge (k + 1) MAX_RETRIES with h | h
        · exact h
        · exfalso
          apply hsettle
          have : k + 1 = MAX_RETRIES := by omega
          simp [settlesAt, this]
      have hidx : settleIdx outcomes k = settleIdx outcomes (k + 1) := by
        rw [settleIdx, dif_pos hklt, if_neg hsettle]
      have hge : k + 1 ≤ settleIdx outcomes (k + 1) :=
        settleIdx_ge outcomes (k + 1)
      simp only [settlesAt, Bool.or_eq_true, Bool.not_eq_true',
        beq_iff_eq] at hsettle
      push_neg at hsettle
      obtain ⟨h429, hmax⟩ := hsettle
      cases houtcome : outcomes k with
      | success img =>
        rw [houtcome] at h429
        simp [is429Fail] at h429
      | failure msg =>
        rw [houtcome] at h429
        simp only [is429Fail, ← Bool.not_eq_true] at h429
        have h429' : is429 msg = true := by
          cases hcase : is429 msg with
          | false => exact absurd hcase (by simpa using h429)
          | true => rfl
        have hcond : is429 msg = true ∧ k < MAX_RETRIES - 1 := ⟨h429', by omega⟩
        have hrange : List.range' k (settleIdx outcomes (k + 1) - k) =
            k :: List.range' (k + 1) (settleIdx outcomes (k + 1) - (k + 1)) := by
          have hn : settleIdx outcomes (k + 1) - k =
              (settleIdx outcomes (k + 1) - (k + 1)) + 1 := by omega
          rw [hn, List.range'_succ]
        simp only [hcond, and_self, if_true, ih (k + 1) (by omega) hklt,
          settleResult, hidx, hrange, List.map_cons]

theorem retryLoop_closed (outcomes : ℕ → AttemptResult) :
    ∀ k, k < MAX_RETRIES →
      retryLoop outcomes k =
        (some (settleResult outcomes k),
         (List.range' k (settleIdx outcomes k - k)).map backoffWait) :=
  fun k hk => retryLoop_closed_aux outcomes (MAX_RETRIES - k) k rfl hk

theorem retryLoop_isSome (outcomes : ℕ → AttemptResult) :
    (retryLoop outcomes 0).1 = some (settleResult outcomes 0) := by
  rw [retryLoop_closed outcomes 0 (by simp [MAX_RETRIES])]

/-- C3: a frame's attempt with `retries = k` is retried iff the
error message indicates HTTP 429 and the attempt count `k + 1` is
below the maximum of `MAX_RETRIES = 5` (that is exactly when
`settlesAt` is false); the retry loop settles at the first attempt
for which `settlesAt` holds, returning success bytes or giving up
immediately with no further attempt, and before each retried attempt
`k + 1` it waits exactly
`backoffWait k = min (5000 * 2 ^ k) 60000` milliseconds. -/
theorem retry_policy (outcomes : ℕ → AttemptResult) :
    (∀ k, settlesAt outcomes k =
      (!is429Fail (outcomes k) || (k + 1 == MAX_RETRIES))) ∧
    (∀ k, backoffWait k = min (5000 * 2 ^ k) 60000) ∧
    MAX_RETRIES = 5 ∧
    retryLoop outcomes 0 =
      (some (settleResult outcomes 0),
       (List.range (settleIdx outcomes 0)).map backoffWait) ∧
    settleIdx outcomes 0 < 5 := by
  refine ⟨fun k => rfl, fun k => rfl, rfl, ?_, ?_⟩
  · have h := retryLoop_closed outcomes 0 (by simp [MAX_RETRIES])
    rw [h]
    rw [List.range_eq_range']
    simp
  · exact settleIdx_lt outcomes 0 (by simp [MAX_RETRIES])

/-! ### emitFrames bookkeeping lemmas -/

theorem emitFrames_final_count (results : ℕ → Option FrameResult) (total : ℕ) :
    ∀ (l : List ℕ) (count : ℕ),
      (emitFrames results total l count).2 =
        count + l.countP fun i => (results i).isSome := by
  intro l
  induction l with
  | nil => intro count; simp [emitFrames]
  | cons i rest ih =>
    intro count
    simp only [emitFrames]
    cases hres : results i with
    | none => simp [ih, List.countP_cons, hres]
    | some fr =>
      cases fr with
      | succeeded r img =>
        simp [ih, List.countP_cons, hres]
        omega
      | givenUp r m =>
        simp [ih, List.countP_cons, hres]
        omega

theorem emitFrames_length (results : ℕ → Option FrameResult) (total : ℕ) :
    ∀ (l : List ℕ) (count : ℕ),
      (emitFrames results total l count).1.length =
        l.countP fun i => isSuccess (results i) := by
  intro l
  induction l with
  | nil => intro count; simp [emitFrames]
  | cons i rest ih =>
    intro count
    simp only [emitFrames]
    cases hres : results i with
    | none => simp [ih, List.countP_cons, isSuccess, hres]
    | some fr =>
      cases fr with
      | succeeded r img => simp [ih, List.countP_cons, isSuccess, hres]
      | givenUp r m => simp [ih, List.countP_cons, isSuccess, hres]

/-- Every event emitted by the per-frame handling is a progress
event, its `completed` field lies in `(count, finalCount]`, and its
`index` field names a frame of the settle list whose result was a
success. -/
theorem emitFrames_mem (results : ℕ → Option FrameResult) (total : ℕ) :
    ∀ (l : List ℕ) (count : ℕ) (e : Event),
      e ∈ (emitFrames results total l count).1 →
      isProgressEv e = true ∧
      count < evCompleted e ∧
      evCompleted e ≤ (emitFrames results total l count).2 ∧
      ∀ i, evIndex e = some i → i ∈ l ∧ isSuccess (results i) = true := by
  intro l
  induction l with
  | nil => intro count e he; simp [emitFrames] at he
  | cons i rest ih =>
    intro count e he
    simp only [emitFrames] at he ⊢
    cases hres : results i with
    | none =>
      rw [hres] at he
      obtain ⟨h1, h2, h3, h4⟩ := ih count e he
      exact ⟨h1, h2, h3, fun j hj => ⟨List.mem_cons_of_mem _ (h4 j hj).1,
        (h4 j hj).2⟩⟩
    | some fr =>
      cases fr with
      | succeeded r img =>
        rw [hres] at he
        rcases List.mem_cons.mp he with rfl | he'
        · refine ⟨rfl, by simp [evCompleted], ?_, ?_⟩
          · have hfin := emitFrames_final_count results total rest (count + 1)
            simp [evCompleted, hfin]
          · intro j hj
            simp only [evIndex, Option.some_inj] at hj
            subst hj
            exact ⟨List.mem_cons_self _ _, by simp [isSuccess, hres]⟩
        · obtain ⟨h1, h2, h3, h4⟩ := ih (count + 1) e he'
          exact ⟨h1, by omega, h3, fun j hj =>
            ⟨List.mem_cons_of_mem _ (h4 j hj).1, (h4 j hj).2⟩⟩
      | givenUp r m =>
        rw [hres] at he
        obtain ⟨h1, h2, h3, h4⟩ := ih (count + 1) e he
        exact ⟨h1, by omega, h3, fun j hj =>
          ⟨List.mem_cons_of_mem _ (h4 j hj).1, (h4 j hj).2⟩⟩

/-- The `completed` fields of successive progress events strictly
increase. -/
theorem emitFrames_chain (results : ℕ → Option FrameResult) (total : ℕ) :
    ∀ (l : List ℕ) (count : ℕ),
      List.Chain' (fun a b => evCompleted a < evCompleted b)
        (emitFrames results total l count).1 := by
  intro l
  induction l with
  | nil => intro count; simp [emitFrames]
  | cons i rest ih =>
    intro count
    simp only [emitFrames]
    cases hres : results i with
    | none => exact ih count
    | some fr =>
      cases fr with
      | succeeded r img =>
        refine List.chain'_cons'.mpr ⟨?_, ih (count + 1)⟩
        intro y hy
        have hmem := List.mem_of_mem_head? hy
        have := (emitFrames_mem results total rest (count + 1) y hmem).2.1
        simpa [evCompleted] using this
      | givenUp r m => exact ih (count + 1)

/-- When every frame of the settle list succeeded, the `completed`
fields are exactly `count+1, count+2, …, count+l.length`. -/
theorem emitFrames_all_success (results : ℕ → Option FrameResult) (total : ℕ) :
    ∀ (l : List ℕ) (count : ℕ),
      (∀ j ∈ l, isSuccess (results j) = true) →
      (emitFrames results total l count).1.map evCompleted =
        List.range' (count + 1) l.length := by
  intro l
  induction l with
  | nil => intro count _; simp [emitFrames]
  | cons i rest ih =>
    intro count hall
    have hi := hall i (List.mem_cons_self _ _)
    simp only [emitFrames]
    cases hres : results i with
    | none => rw [hres] at hi; simp [isSuccess] at hi
    | some fr =>
      cases fr with
      | givenUp r m => rw [hres] at hi; simp [isSuccess, hres] at hi
      | succeeded r img =>
        have hrest := ih (count + 1)
          (fun j hj => hall j (List.mem_cons_of_mem _ hj))
        simp only [List.map_cons, hrest, List.length_cons, evCompleted]
        rw [List.range'_succ (count + 1) rest.length 1]

/-! ### Trace-level lemmas -/

theorem filterMap_progress_map_emit :
    ∀ evs : List Event, (∀ e ∈ evs, isProgressEv e = true) →
      (evs.map Action.emit).filterMap progressOf = evs := by
  intro evs
  induction evs with
  | nil => intro _; simp
  | cons e rest ih =>
    intro hall
    have he := hall e (List.mem_cons_self _ _)
    have hrest := ih fun x hx => hall x (List.mem_cons_of_mem _ hx)
    cases e with
    | progress c t i img =>
      simp only [List.map_cons, List.filterMap_cons, progressOf, hrest]
    | config _ _ _ _ => simp [isProgressEv] at he
    | complete => simp [isProgressEv] at he
    | error _ => simp [isProgressEv] at he

theorem runOrchestrator_filterMap (xSteps ySteps : ℕ) (settleOrder : List ℕ)
    (outcomes : ℕ → ℕ → AttemptResult) :
    (runOrchestrator xSteps ySteps settleOrder outcomes).filterMap progressOf =
      (emitFrames (frameResults outcomes) (xSteps * ySteps) settleOrder 0).1 := by
  simp only [runOrchestrator, List.filterMap_cons, List.filterMap_append,
    progressOf]
  rw [filterMap_progress_map_emit _
    (fun e he => (emitFrames_mem _ _ _ _ e he).1)]
  simp [progressOf]

theorem getLast?_cons_append {α : Type} (a x y : α) :
    ∀ l : List α, (a :: (l ++ [x, y])).getLast? = some y := by
  intro l
  induction l generalizing a with
  | nil => rfl
  | cons b rest ih =>
    rw [List.cons_append, List.getLast?_cons_cons]
    exact ih b

/-- Helper: a progress action is none of config/complete/error/close. -/
theorem isProgressAction_excl (a : Action) (h : isProgressAction a = true) :
    isConfigAction a = false ∧ isCompleteAction a = false ∧
    isErrorAction a = false ∧ isCloseAction a = false := by
  cases a with
  | close => simp [isProgressAction] at h
  | emit e =>
    cases e with
    | progress _ _ _ _ =>
      exact ⟨rfl, rfl, rfl, rfl⟩
    | config _ _ _ _ => simp [isProgressAction, isProgressEv] at h
    | complete => simp [isProgressAction, isProgressEv] at h
    | error _ => simp [isProgressAction, isProgressEv] at h

theorem mid_all_progress (xSteps ySteps : ℕ) (settleOrder : List ℕ)
    (outcomes : ℕ → ℕ → AttemptResult) :
    ∀ a ∈ (emitFrames (frameResults outcomes) (xSteps * ySteps)
        settleOrder 0).1.map Action.emit,
      isProgressAction a = true := by
  intro a ha
  obtain ⟨e, he, rfl⟩ := List.mem_map.mp ha
  exact (emitFrames_mem _ _ _ _ e he).1

/-- C4: the trace of every run starts with the single `config`
event, continues with progress events only, then emits exactly one
terminal event — `complete` (the `error` branch is dead in this
model) — strictly after all progress events, and closes the stream
as the very last action, after the terminal event is written. -/
theorem stream_event_discipline (xSteps ySteps : ℕ) (settleOrder : List ℕ)
    (outcomes : ℕ → ℕ → AttemptResult) :
    ∃ mid,
      runOrchestrator xSteps ySteps settleOrder outcomes =
        Action.emit (.config xSteps ySteps (xSteps * ySteps)
            (calculateCost xSteps ySteps)) ::
          (mid ++ [Action.emit .complete, Action.close]) ∧
      (∀ a ∈ mid, isProgressAction a = true) ∧
      (runOrchestrator xSteps ySteps settleOrder outcomes).countP
          isConfigAction = 1 ∧
      (runOrchestrator xSteps ySteps settleOrder outcomes).countP
          isCompleteAction = 1 ∧
      (runOrchestrator xSteps ySteps settleOrder outcomes).countP
          isErrorAction = 0 ∧
      (runOrchestrator xSteps ySteps settleOrder outcomes).countP
          isCloseAction = 1 ∧
      (runOrchestrator xSteps ySteps settleOrder outcomes).getLast? =
        some Action.close := by
  refine ⟨(emitFrames (frameResults outcomes) (xSteps * ySteps)
      settleOrder 0).1.map Action.emit, rfl,
    mid_all_progress xSteps ySteps settleOrder outcomes, ?_, ?_, ?_, ?_, ?_⟩
  all_goals
    first
    | · simp only [runOrchestrator, List.countP_cons, List.countP_append]
        rw [List.countP_eq_zero.mpr]
        · rfl
        · intro a ha
          have h := (isProgressAction_excl a
            (mid_all_progress xSteps ySteps settleOrder outcomes a ha))
          simp_all
    | exact getLast?_cons_append _ _ _ _

/-- Every frame's retry loop reaches a terminal state, so the final
`completedCount` of a run over a permutation of `0 .. N-1` is `N`. -/
theorem emitFrames_total_of_perm (outcomes : ℕ → ℕ → AttemptResult)
    (N total : ℕ) (settleOrder : List ℕ)
    (hperm : settleOrder.Perm (List.range N)) :
    (emitFrames (frameResults outcomes) total settleOrder 0).2 = N := by
  rw [emitFrames_final_count]
  have hall : ∀ i ∈ settleOrder, (frameResults outcomes i).isSome = true := by
    intro i _
    rw [frameResults, retryLoop_isSome]
    rfl
  rw [List.countP_eq_length.mpr hall, hperm.length_eq, List.length_range]
  omega

theorem getLast?_range' :
    ∀ (n s : ℕ), 0 < n → (List.range' s n).getLast? = some (s + n - 1) := by
  intro n
  induction n with
  | zero => intro s h; omega
  | succ n ih =>
    intro s _
    rw [List.range'_succ s n 1]
    cases n with
    | zero => simp
    | succ n' =>
      rw [List.range'_succ (s + 1) n' 1, List.getLast?_cons_cons,
        ← List.range'_succ (s + 1) n' 1, ih (s + 1) (by omega)]
      congr 1
      omega

/-- C2 as amended: over any settle order that is a permutation of
the `N = xSteps * ySteps` frames, the number of emitted progress
events equals the number of frames whose retry loop succeeded (not
`N` — a given-up frame emits nothing), the `completed` fields of
successive progress events strictly increase (not necessarily by 1 —
give-ups advance the counter silently), and when every frame
succeeds there are exactly `N` progress events whose `completed`
fields are `1, 2, …, N`, the last one equal to `N`. -/
theorem progress_event_accounting (xSteps ySteps : ℕ) (settleOrder : List ℕ)
    (outcomes : ℕ → ℕ → AttemptResult)
    (hperm : settleOrder.Perm (List.range (xSteps * ySteps))) :
    ((runOrchestrator xSteps ySteps settleOrder outcomes).filterMap
        progressOf).length =
      (List.range (xSteps * ySteps)).countP
        (fun i => isSuccess (frameResults outcomes i)) ∧
    List.Chain' (fun a b => evCompleted a < evCompleted b)
      ((runOrchestrator xSteps ySteps settleOrder outcomes).filterMap
        progressOf) ∧
    ((∀ i < xSteps * ySteps, isSuccess (frameResults outcomes i) = true) →
      ((runOrchestrator xSteps ySteps settleOrder outcomes).filterMap
          progressOf).map evCompleted = List.range' 1 (xSteps * ySteps) ∧
      (0 < xSteps * ySteps →
        (((runOrchestrator xSteps ySteps settleOrder outcomes).filterMap
            progressOf).map evCompleted).getLast? =
          some (xSteps * ySteps))) := by
  rw [runOrchestrator_filterMap]
  refine ⟨?_, emitFrames_chain _ _ _ _, ?_⟩
  · rw [emitFrames_length]
    exact hperm.countP_eq _
  · intro hall
    have hord : ∀ j ∈ settleOrder, isSuccess (frameResults outcomes j) = true := by
      intro j hj
      have : j ∈ List.range (xSteps * ySteps) := hperm.mem_iff.mp hj
      exact hall j (List.mem_range.mp this)
    have hlen : settleOrder.length = xSteps * ySteps := by
      simpa using hperm.length_eq
    have h := emitFrames_all_success (frameResults outcomes)
      (xSteps * ySteps) settleOrder 0 hord
    rw [hlen] at h
    have h' : (emitFrames (frameResults outcomes) (xSteps * ySteps)
        settleOrder 0).1.map evCompleted =
        List.range' 1 (xSteps * ySteps) := by simpa using h
    refine ⟨h', fun hpos => ?_⟩
    rw [h', getLast?_range' _ 1 hpos]
    congr 1
    omega

/-- C2 witness: a 2-frame batch (`xSteps = 2, ySteps = 1`) where
both frames succeed, settling out of order. -/
theorem progress_event_accounting_witness :
    ((runOrchestrator 2 1 [1, 0]
        (fun _ _ => .success "img")).filterMap progressOf).length =
      (List.range 2).countP
        (fun i => isSuccess (frameResults (fun _ _ => .success "img") i)) ∧
    ((runOrchestrator 2 1 [1, 0]
        (fun _ _ => .success "img")).filterMap progressOf).map evCompleted =
      List.range' 1 2 := by
  have h := progress_event_accounting 2 1 [1, 0]
    (fun _ _ => .success "img") (by decide)
  exact ⟨h.1, (h.2.2 (by decide)).1⟩

/-- C2 counterexample: a batch of `N = 2` frames in which frame 1
gives up (non-429 failure) while frame 0 succeeds; only one progress
event is emitted, not `N = 2`, and it carries `completed = 2` (the
counter advanced by the silent give-up), so `completed` did not
increase by exactly 1 per emission starting from 1. -/
theorem progress_event_count_counterexample :
    ((runOrchestrator 2 1 [1, 0]
        (fun i _ => if i = 0 then .success "img"
          else .failure "HTTP 500")).filterMap progressOf).length = 1 ∧
    (1 : ℕ) ≠ 2 ∧
    (runOrchestrator 2 1 [1, 0]
        (fun i _ => if i = 0 then .success "img"
          else .failure "HTTP 500")).filterMap progressOf =
      [.progress 2 2 0 "img"] := by
  refine ⟨by decide, by decide, by decide⟩

/-- Shared helper: the complete-event count and last action of every
trace. -/
theorem runOrchestrator_terminal (xSteps ySteps : ℕ) (settleOrder : List ℕ)
    (outcomes : ℕ → ℕ → AttemptResult) :
    (runOrchestrator xSteps ySteps settleOrder outcomes).countP
      isCompleteAction = 1 ∧
    (runOrchestrator xSteps ySteps settleOrder outcomes).getLast? =
      some Action.close := by
  constructor
  · simp only [runOrchestrator, List.countP_cons, List.countP_append]
    rw [List.countP_eq_zero.mpr]
    · rfl
    · intro a ha
      have h := isProgressAction_excl a
        (mid_all_progress xSteps ySteps settleOrder outcomes a ha)
      simp_all
  · exact getLast?_cons_append _ _ _ _

/-- Shared helper: no emitted event of a run names frame `i` unless
frame `i`'s retry loop succeeded. -/
theorem runOrchestrator_index_source (xSteps ySteps : ℕ)
    (settleOrder : List ℕ) (outcomes : ℕ → ℕ → AttemptResult) (i : ℕ)
    (hns : isSuccess (frameResults outcomes i) = false) :
    ∀ e, Action.emit e ∈ runOrchestrator xSteps ySteps settleOrder outcomes →
      evIndex e ≠ some i := by
  intro e he hidx
  simp only [runOrchestrator, List.mem_cons, List.mem_append,
    List.mem_singleton] at he
  rcases he with heq | hm | heq2 | heq3 | habs
  · cases heq
    simp [evIndex] at hidx
  · obtain ⟨x, hx, hxe⟩ := List.mem_map.mp hm
    cases hxe
    have h := ((emitFrames_mem _ _ _ _ _ hx).2.2.2 i hidx).2
    rw [hns] at h
    cases h
  · cases heq2
    simp [evIndex] at hidx
  · exact Action.noConfusion heq3
  · simp at habs

/-- C1 as amended: a frame whose retry loop ends in give-up emits
**no** progress event at all (the source logs the failure and
increments `completedCount` without enqueueing anything — the spec's
"emit Progress anyway with no usable payload" does not happen); the
batch still emits the `complete` event after all frames settle, the
stream still closes last, and the internal completed count still
reaches `N`. -/
theorem givenup_frame_silent (xSteps ySteps : ℕ) (settleOrder : List ℕ)
    (outcomes : ℕ → ℕ → AttemptResult) (i r : ℕ) (m : String)
    (hperm : settleOrder.Perm (List.range (xSteps * ySteps)))
    (hgu : frameResults outcomes i = some (.givenUp r m)) :
    (∀ e, Action.emit e ∈ runOrchestrator xSteps ySteps settleOrder outcomes →
      evIndex e ≠ some i) ∧
    (emitFrames (frameResults outcomes) (xSteps * ySteps)
        settleOrder 0).2 = xSteps * ySteps ∧
    (runOrchestrator xSteps ySteps settleOrder outcomes).countP
      isCompleteAction = 1 ∧
    (runOrchestrator xSteps ySteps settleOrder outcomes).getLast? =
      some Action.close := by
  have hterm := runOrchestrator_terminal xSteps ySteps settleOrder outcomes
  refine ⟨runOrchestrator_index_source xSteps ySteps settleOrder outcomes i
      (by rw [hgu]; rfl),
    emitFrames_total_of_perm outcomes _ _ settleOrder hperm,
    hterm.1, hterm.2⟩

/-- C1 witness: a 1-frame batch whose only frame gives up on a
non-429 failure. -/
theorem givenup_frame_silent_witness :
    (∀ e, Action.emit e ∈ runOrchestrator 1 1 [0] (fun _ _ => .failure "boom") →
      evIndex e ≠ some 0) ∧
    (runOrchestrator 1 1 [0] (fun _ _ => .failure "boom")).countP
      isCompleteAction = 1 :=
  have h := givenup_frame_silent 1 1 [0] (fun _ _ => .failure "boom") 0 0
    "boom" (by decide) (by decide)
  ⟨h.1, h.2.2.1⟩

/-- C1 counterexample: in that same 1-frame batch the claim's
"exactly one progress event for the given-up frame" fails — the
trace contains zero progress events even though the frame settled as
given-up and `complete` was still emitted. -/
theorem givenup_frame_progress_counterexample :
    frameResults (fun _ _ => .failure "boom") 0 =
      some (.givenUp 0 "boom") ∧
    (runOrchestrator 1 1 [0] (fun _ _ => .failure "boom")).countP
      isProgressAction = 0 ∧
    (runOrchestrator 1 1 [0] (fun _ _ => .failure "boom")).countP
      isCompleteAction = 1 := by
  refine ⟨by decide, by decide, by decide⟩

/-! ### Concurrency discipline lemmas -/

theorem dispatchFrom_flatten (n : ℕ) :
    ∀ d i, n - i ≤ d → (dispatchFrom n i).flatten = List.range' i (n - i) := by
  intro d
  induction d with
  | zero =>
    intro i h
    rw [dispatchFrom, if_neg (by omega)]
    simp [show n - i = 0 by omega]
  | succ d ih =>
    intro i h
    by_cases hin : i < n
    · rw [dispatchFrom, if_pos hin, List.flatten_cons,
        ih (i + CONCURRENCY) (by simp [CONCURRENCY]; omega)]
      by_cases hrem : n - i ≤ CONCURRENCY
      · have h1 : min CONCURRENCY (n - i) = n - i := by omega
        have h2 : n - (i + CONCURRENCY) = 0 := by omega
        rw [h1, h2]
        simp
      · have h1 : min CONCURRENCY (n - i) = CONCURRENCY := by omega
        rw [h1]
        have happ := List.range'_append i CONCURRENCY (n - (i + CONCURRENCY)) 1
        simp only [Nat.one_mul] at happ
        rw [happ]
        congr 1
        omega
    · rw [dispatchFrom, if_neg hin]
      simp [show n - i = 0 by omega]

theorem dispatchFrom_size (n : ℕ) :
    ∀ d i, n - i ≤ d → ∀ b ∈ dispatchFrom n i, b.length ≤ CONCURRENCY := by
  intro d
  induction d with
  | zero =>
    intro i h b hb
    rw [dispatchFrom, if_neg (by omega)] at hb
    simp at hb
  | succ d ih =>
    intro i h b hb
    by_cases hin : i < n
    · rw [dispatchFrom, if_pos hin] at hb
      rcases List.mem_cons.mp hb with rfl | hb'
      · simp [List.length_range']
      · exact ih (i + CONCURRENCY) (by simp [CONCURRENCY]; omega) b hb'
    · rw [dispatchFrom, if_neg hin] at hb
      simp at hb

/-- C7: the chunked dispatcher partitions the `n` frame indices into
consecutive batches of at most `CONCURRENCY = 8` indices — only the
frames of one batch are in flight at a time, and `Promise.all` is
awaited between batches — every frame index `i < n` is dispatched to
exactly one worker (its dispatch count over the whole run is 1), and
every dispatched frame is processed to a terminal state
(its retry loop never falls through without settling). -/
theorem bounded_concurrency (n : ℕ) :
    (∀ b ∈ dispatchBatches n, b.length ≤ CONCURRENCY) ∧
    (dispatchBatches n).flatten = List.range n ∧
    (∀ i, ((dispatchBatches n).flatten).count i =
      if i < n then 1 else 0) ∧
    (∀ outcomes : ℕ → AttemptResult, (retryLoop outcomes 0).1 ≠ none) := by
  have hflat : (dispatchBatches n).flatten = List.range n := by
    rw [dispatchBatches, dispatchFrom_flatten n n 0 (by omega)]
    rw [Nat.sub_zero, ← List.range_eq_range']
  refine ⟨fun b hb => dispatchFrom_size n n 0 (by omega) b hb, hflat,
    ?_, ?_⟩
  · intro i
    rw [hflat]
    by_cases h : i < n
    · rw [if_pos h]
      exact List.count_eq_one_of_mem (List.nodup_range n)
        (List.mem_range.mpr h)
    · rw [if_neg h]
      exact List.count_eq_zero_of_not_mem
        (fun hc => h (List.mem_range.mp hc))
  · intro outcomes
    rw [retryLoop_isSome]
    simp

/-- C8 counterexample: for `xSteps = 3, ySteps = 3` there are 9
frames, and `Array(Math.min(CONCURRENCY, flatSteps.length))` yields
`min 8 9 = 8` workers — the pool size does **not** clamp to 9. -/
theorem workerpool_clamp_counterexample :
    workerCount CONCURRENCY (flatSteps 3 3 "avatar" 20 15).length = 8 ∧
    workerCount CONCURRENCY (flatSteps 3 3 "avatar" 20 15).length ≠ 9 := by
  refine ⟨by decide, by decide⟩

/-- C8 as amended: with `xSteps = 3, ySteps = 3` there are 9 frames —
**more** than the concurrency limit, not fewer — so the worker pool
clamps to `min(8, 9) = 8` workers and only 8 frames are dispatched
immediately (the chunked dispatcher's batches have sizes `[8, 1]`);
the batch still emits `complete` exactly once and closes the stream
after all 9 frames settle, the internal completed count reaching 9. -/
theorem nine_frames_pool_clamp (settleOrder : List ℕ)
    (outcomes : ℕ → ℕ → AttemptResult)
    (hperm : settleOrder.Perm (List.range 9)) :
    workerCount CONCURRENCY (flatSteps 3 3 "avatar" 20 15).length = 8 ∧
    (dispatchBatches (flatSteps 3 3 "avatar" 20 15).length).map List.length
      = [8, 1] ∧
    (emitFrames (frameResults outcomes) 9 settleOrder 0).2 = 9 ∧
    (runOrchestrator 3 3 settleOrder outcomes).countP isCompleteAction = 1 ∧
    (runOrchestrator 3 3 settleOrder outcomes).getLast? =
      some Action.close := by
  have hterm := runOrchestrator_terminal 3 3 settleOrder outcomes
  refine ⟨by decide, ?_, ?_, hterm.1, hterm.2⟩
  · have h9 : (flatSteps 3 3 "avatar" 20 15).length = 9 := by decide
    rw [h9]
    simp [dispatchBatches, dispatchFrom, CONCURRENCY]
  · exact emitFrames_total_of_perm outcomes 9 9 settleOrder hperm

/-- C8 witness: `nine_frames_pool_clamp` at the identity settle
order with every frame succeeding. -/
theorem nine_frames_pool_clamp_witness :
    workerCount CONCURRENCY (flatSteps 3 3 "avatar" 20 15).length = 8 ∧
    (emitFrames (frameResults (fun _ _ => .success "img")) 9
      (List.range 9) 0).2 = 9 :=
  have h := nine_frames_pool_clamp (List.range 9)
    (fun _ _ => .success "img") (List.Perm.refl _)
  ⟨h.1, h.2.2.1⟩

/-- C9: a missing (or JS-falsy) `imageBase64` yields a synchronous
400 JSON response `{error: "No image provided"}` with no event
stream (so no remote work begins); a present image with an
unconfigured `REPLICATE_API_TOKEN` yields a synchronous 500 JSON
error; otherwise the handler returns 200 with
`Content-Type: text/event-stream` (plus `Cache-Control: no-cache`,
`Connection: keep-alive`) and the live stream body. -/
theorem post_request_validation :
    (∀ tok, POSTHandler none tok =
      { status := 400, contentType := "application/json",
        cacheControl := none, connection := none,
        body := .json "No image provided" }) ∧
    (∀ img tok, img ≠ "" → jsFalsy tok = true →
      POSTHandler (some img) tok =
      { status := 500, contentType := "application/json",
        cacheControl := none, connection := none,
        body := .json "Server not configured. Missing API token." }) ∧
    (∀ img tok, img ≠ "" → tok ≠ "" →
      POSTHandler (some img) (some tok) =
      { status := 200, contentType := "text/event-stream",
        cacheControl := some "no-cache", connection := some "keep-alive",
        body := .eventStream }) := by
  refine ⟨fun tok => rfl, ?_, ?_⟩
  · intro img tok himg htok
    have h0 : jsFalsy (some img) = false := by
      simp [jsFalsy, beq_eq_false_iff_ne.mpr himg]
    simp [POSTHandler, h0, htok]
  · intro img tok himg htok
    have h0 : jsFalsy (some img) = false := by
      simp [jsFalsy, beq_eq_false_iff_ne.mpr himg]
    have h2 : jsFalsy (some tok) = false := by
      simp [jsFalsy, beq_eq_false_iff_ne.mpr htok]
    simp [POSTHandler, h0, h2]

/-- C9 witness: `post_request_validation` at concrete request
values. -/
theorem post_request_validation_witness :
    POSTHandler none (some "tok") =
      { status := 400, contentType := "application/json",
        cacheControl := none, connection := none,
        body := .json "No image provided" } ∧
    POSTHandler (some "img") none =
      { status := 500, contentType := "application/json",
        cacheControl := none, connection := none,
        body := .json "Server not configured. Missing API token." } ∧
    POSTHandler (some "img") (some "tok") =
      { status := 200, contentType := "text/event-stream",
        cacheControl := some "no-cache", connection := some "keep-alive",
        body := .eventStream } :=
  have h := post_request_validation
  ⟨h.1 (some "tok"), h.2.1 "img" none (by decide) (by decide),
    h.2.2 "img" "tok" (by decide) (by decide)⟩

/-- C10: an array output is consumed through its first element only
(the tail is discarded); an empty array, or any output that is not a
string, not a stream, and not an array whose first element is one of
those, makes `generateImage` raise
`"Unexpected output format from Replicate API"` instead of returning
bytes; a bare stream concatenates its chunks and a bare string is
fetched. -/
theorem generateImage_output_normalization
    (fetchFn : String → Except ℕ (List ℕ)) :
    (∀ item rest, generateImage fetchFn (.arr (item :: rest)) =
      generateImage fetchFn (.arr [item])) ∧
    generateImage fetchFn (.arr []) = .error unexpectedOutputMsg ∧
    (∀ v, usableShape v = false →
      generateImage fetchFn v = .error unexpectedOutputMsg) ∧
    (∀ chunks, generateImage fetchFn (.rstream chunks) = .ok chunks.flatten) ∧
    (∀ s, generateImage fetchFn (.str s) = fetchImage fetchFn s) := by
  refine ⟨?_, rfl, ?_, fun chunks => rfl, fun s => rfl⟩
  · intro item rest
    cases item <;> rfl
  · intro v hv
    cases v with
    | str s => simp [usableShape] at hv
    | rstream c => simp [usableShape] at hv
    | other => rfl
    | arr items =>
      cases items with
      | nil => rfl
      | cons hd tl =>
        cases hd with
        | str s => simp [usableShape] at hv
        | rstream c => simp [usableShape] at hv
        | arr xs => rfl
        | other => rfl

/-- C10 witness: `generateImage_output_normalization` at a concrete
fetch environment and concrete outputs. -/
theorem generateImage_output_normalization_witness :
    generateImage (fun _ => .ok [7]) (.arr [.other, .str "u"]) =
      generateImage (fun _ => .ok [7]) (.arr [.other]) ∧
    generateImage (fun _ => .ok [7]) JsVal.other =
      .error unexpectedOutputMsg :=
  have h := generateImage_output_normalization (fun _ => .ok [7])
  ⟨h.1 .other [.str "u"], h.2.2.1 .other (by decide)⟩

end Avatar3D
